import Mathlib

/-!
Verification development for the fhevm-react-template client-side session
layer.  The definitions below are a shallow embedding of the repository's
TypeScript (packages/fhevm-sdk) and Solidity (custom-contracts/PRSCompute.sol)
code; parts of the repository that are referenced but whose source is not
present (the FhevmDecryptionSignature class and the encrypted-input builder of
the relayer engine) are modelled from the specification, as marked in the
corresponding doc comments.
-/

/-- A cleartext value returned by the decryption relay
(`Record<string, string | bigint | boolean>` in decryption.ts). -/
inductive ClearValue where
  | str : String → ClearValue
  | int : Int → ClearValue
  | bool : Bool → ClearValue
deriving DecidableEq, Repr

/-- Type `DecryptRequest` from packages/fhevm-sdk/src/core/decryption.ts:
`{ handle: string; contractAddress: 0x-string }`. -/
structure DecryptRequest where
  handle : String
  contractAddress : String
deriving DecidableEq, Repr

/-- Type `UserDecryptSignature` from packages/fhevm-sdk/src/core/decryption.ts. -/
structure UserDecryptSignature where
  privateKey : String
  publicKey : String
  signature : String
  contractAddresses : List String
  userAddress : String
  startTimestamp : Nat
  durationDays : Nat
deriving DecidableEq, Repr

/-- One call to the remote relay's `userDecrypt`; the fields appear in the
relay's declared argument order (requests, ephemeral private key, ephemeral
public key, wallet signature, contractAddresses, userAddress, startTimestamp,
durationDays). -/
structure UserDecryptCall where
  requests : List DecryptRequest
  privateKey : String
  publicKey : String
  walletSignature : String
  contractAddresses : List String
  userAddress : String
  startTimestamp : Nat
  durationDays : Nat

/-- The engine instance as used by decryption.ts: an opaque object exposing
the relay entry points `userDecrypt` and `publicDecrypt`. -/
structure FhevmInstance where
  userDecrypt : UserDecryptCall → List (String × ClearValue)
  publicDecrypt : List DecryptRequest → List (String × ClearValue)

/-- The copy `requests.map(r => ({ handle: r.handle, contractAddress: r.contractAddress }))`
from `userDecryptWithSignature` / `publicDecrypt` in decryption.ts. -/
def mutableReqs (requests : List DecryptRequest) : List DecryptRequest :=
  requests.map fun r => { handle := r.handle, contractAddress := r.contractAddress }

/-- The relay call assembled by `userDecryptWithSignature` in decryption.ts. -/
def userDecryptCallOf (requests : List DecryptRequest) (sig : UserDecryptSignature) :
    UserDecryptCall :=
  { requests := mutableReqs requests
    privateKey := sig.privateKey
    publicKey := sig.publicKey
    walletSignature := sig.signature
    contractAddresses := sig.contractAddresses
    userAddress := sig.userAddress
    startTimestamp := sig.startTimestamp
    durationDays := sig.durationDays }

/-- Function `userDecryptWithSignature` from decryption.ts: copies the requests and
forwards them, together with the signature's fields, to
`instance.userDecrypt`.  The second component is the trace of relay calls the
function performs (exactly the one call the source makes; there is no guard
or failure path in the source). -/
def userDecryptWithSignature (inst : FhevmInstance)
    (requests : List DecryptRequest) (sig : UserDecryptSignature) :
    List (String × ClearValue) × List UserDecryptCall :=
  let call := userDecryptCallOf requests sig
  (inst.userDecrypt call, [call])

/-- Function `publicDecrypt` from decryption.ts: copies the requests and forwards them
to `instance.publicDecrypt`.  The second component is the trace of relay
calls; a call carries only the request list, nothing else. -/
def publicDecrypt (inst : FhevmInstance) (requests : List DecryptRequest) :
    List (String × ClearValue) × List (List DecryptRequest) :=
  let m := mutableReqs requests
  (inst.publicDecrypt m, [m])

/- ----------------------------------------------------------------------
DecryptionSignatureManager.  The FhevmDecryptionSignature class is referenced
by the React components but its source is not part of this tree, so the
manager is modelled from the specification (spec.md §3, §4.5).
---------------------------------------------------------------------- -/

/-- Modelled from the spec: a DecryptionSignature is valid at time `now` iff
`now ∈ [startTimestamp, startTimestamp + durationDays*86400)`
(the FhevmDecryptionSignature validity check is not under src). -/
def signatureValidAt (sig : UserDecryptSignature) (now : Nat) : Bool :=
  decide (sig.startTimestamp ≤ now ∧
    now < sig.startTimestamp + sig.durationDays * 86400)

/-- Modelled from the spec: a signature authorizes decryption against a list
of contract addresses at time `now` iff it is time-valid and every address is
a member of its `contractAddresses` set. -/
def signatureValidFor (sig : UserDecryptSignature) (addrs : List String)
    (now : Nat) : Bool :=
  signatureValidAt sig now && decide (∀ a ∈ addrs, a ∈ sig.contractAddresses)

/-- Insert a string into a sorted list (order-normalization step). -/
def insertSorted (a : String) : List String → List String
  | [] => [a]
  | b :: rest => if a ≤ b then a :: b :: rest else b :: insertSorted a rest

/-- Sort a list of strings (order-normalization step). -/
def sortStrings : List String → List String
  | [] => []
  | a :: rest => insertSorted a (sortStrings rest)

/-- Modelled from the spec (§4.5 step 1): normalize a contract-address list —
lower-case, de-duplicate, sort. -/
def normalizeAddresses (addrs : List String) : List String :=
  sortStrings ((addrs.map String.toLower).dedup)

/-- Cache key of a decryption signature: the user address, the normalized
contract-address set and the instance key id (spec §3: "stable hash of
(userAddress, normalized contractAddresses set, Instance key id)"; modelled
as the triple itself). -/
abbrev CacheKey := String × List String × String

/-- Persistent signature storage, modelled as an association list. -/
abbrev SigStorage := List (CacheKey × UserDecryptSignature)

/-- Look a cache key up in storage. -/
def storeLookup (st : SigStorage) (k : CacheKey) : Option UserDecryptSignature :=
  match st with
  | [] => none
  | (k2, v) :: rest => if k2 = k then some v else storeLookup rest k

/-- Persist a signature under a cache key. -/
def storeInsert (st : SigStorage) (k : CacheKey) (v : UserDecryptSignature) :
    SigStorage :=
  (k, v) :: st

/-- The environment of one `loadOrSign` run: the current time, the freshly
generated ephemeral keypair, the wallet-signing collaborator (signing the
typed payload `ephemeralPublicKey, contractAddresses, startTimestamp,
durationDays`), and the fixed duration-days policy constant. -/
structure SignEnv where
  now : Nat
  ephemeralPrivateKey : String
  ephemeralPublicKey : String
  walletSign : String → List String → Nat → Nat → String
  durationDaysPolicy : Nat

/-- Modelled from the spec (§4.5 step 3): assemble a fresh DecryptionSignature
from a newly generated ephemeral keypair and a wallet signature over the typed
payload, with `startTimestamp = now` and the fixed policy duration. -/
def freshSignature (env : SignEnv) (user : String) (normAddrs : List String) :
    UserDecryptSignature :=
  { privateKey := env.ephemeralPrivateKey
    publicKey := env.ephemeralPublicKey
    signature := env.walletSign env.ephemeralPublicKey normAddrs env.now
      env.durationDaysPolicy
    contractAddresses := normAddrs
    userAddress := user
    startTimestamp := env.now
    durationDays := env.durationDaysPolicy }

/-- Modelled from the spec (§4.5): `loadOrSign`.  Normalize the addresses and
compute the cache key; if storage holds an unexpired entry for that exact key,
return it with no signing interaction; otherwise sign a fresh signature,
persist it and return it.  The result is `(signature, updated storage, number
of wallet-signing prompts performed)`. -/
def loadOrSign (env : SignEnv) (st : SigStorage) (user : String)
    (contractAddresses : List String) (keyId : String) :
    UserDecryptSignature × SigStorage × Nat :=
  let normAddrs := normalizeAddresses contractAddresses
  let key : CacheKey := (user, normAddrs, keyId)
  match storeLookup st key with
  | some sig =>
      if signatureValidAt sig env.now then (sig, st, 0)
      else
        let fresh := freshSignature env user normAddrs
        (fresh, storeInsert st key fresh, 1)
  | none =>
      let fresh := freshSignature env user normAddrs
      (fresh, storeInsert st key fresh, 1)

/- ----------------------------------------------------------------------
EncryptedInputBuilder.  The builder object returned by
`instance.createEncryptedInput` belongs to the relayer engine and
core/encryption.ts is not part of this tree, so the builder is modelled from
the specification (spec.md §3, §4.4).
---------------------------------------------------------------------- -/

/-- A plaintext value accumulated by the builder. -/
inductive PlainValue where
  | bool : Bool → PlainValue
  | uint : Nat → Nat → PlainValue
  | address : String → PlainValue
deriving DecidableEq, Repr

/-- One typed add-call on the builder (`addBool`, `add64`, `addAddress`, …);
integer payloads are JS bigints, hence `Int`. -/
inductive AddOp where
  | addBool : Bool → AddOp
  | add32 : Int → AddOp
  | add64 : Int → AddOp
  | addAddress : String → AddOp
deriving DecidableEq, Repr

/-- Error raised by a failing add-call (spec §4.4: out-of-range values fail
with `ValueOutOfRange` at add-time). -/
inductive BuildError where
  | valueOutOfRange : BuildError
deriving DecidableEq, Repr

/-- Modelled from the spec: the builder state — the target contract, the user,
and the plaintext values accumulated in call order. -/
structure EncryptedInputBuilder where
  contractAddress : String
  userAddress : String
  values : List PlainValue
deriving DecidableEq, Repr

/-- Operation `createInput(contractAddress, userAddress)` (spec §4.4): a fresh builder
with no accumulated values. -/
def createInput (contractAddress userAddress : String) : EncryptedInputBuilder :=
  { contractAddress := contractAddress, userAddress := userAddress, values := [] }

/-- Modelled from the spec: one add-call; the value is appended in call order,
and an out-of-range integer for the declared width fails at add-time. -/
def applyAdd (b : EncryptedInputBuilder) (op : AddOp) :
    Except BuildError EncryptedInputBuilder :=
  match op with
  | AddOp.addBool v => Except.ok { b with values := b.values ++ [PlainValue.bool v] }
  | AddOp.add32 v =>
      if 0 ≤ v ∧ v < 2 ^ 32 then
        Except.ok { b with values := b.values ++ [PlainValue.uint 32 v.toNat] }
      else Except.error BuildError.valueOutOfRange
  | AddOp.add64 v =>
      if 0 ≤ v ∧ v < 2 ^ 64 then
        Except.ok { b with values := b.values ++ [PlainValue.uint 64 v.toNat] }
      else Except.error BuildError.valueOutOfRange
  | AddOp.addAddress v =>
      Except.ok { b with values := b.values ++ [PlainValue.address v] }

/-- A sequence of add-calls, applied left to right; the first failing call
aborts the sequence. -/
def applyAdds (b : EncryptedInputBuilder) : List AddOp →
    Except BuildError EncryptedInputBuilder
  | [] => Except.ok b
  | op :: rest => do applyAdds (← applyAdd b op) rest

/-- Type `EncryptedInput` (spec §3): an ordered sequence of opaque handles plus one
proof covering the whole batch. -/
structure EncryptedInput where
  handles : List String
  inputProof : String
deriving DecidableEq, Repr

/-- The opaque handle produced for the i-th accumulated value of one encrypt
run (`rand` stands for the randomness of the run: encryption is randomized). -/
def mkHandle (rand i : Nat) : String :=
  "handle:" ++ toString rand ++ ":" ++ toString i

/-- The single batch proof of one encrypt run; never the empty string. -/
def mkProof (rand : Nat) (b : EncryptedInputBuilder) : String :=
  "proof:" ++ toString rand ++ ":" ++ b.contractAddress ++ ":" ++
    toString b.values.length

/-- Modelled from the spec (§4.4): `encrypt()` — one handle per accumulated
value, in insertion order, and exactly one input proof for the whole batch. -/
def encryptBuilder (b : EncryptedInputBuilder) (rand : Nat) : EncryptedInput :=
  { handles := (List.range b.values.length).map (mkHandle rand)
    inputProof := mkProof rand b }

/- ----------------------------------------------------------------------
FHEEncryptWithAbi (packages/fhevm-sdk/src/react/components/FHEEncryptWithAbi.tsx):
the add-call loop of the onClick handler.
---------------------------------------------------------------------- -/

/-- A JS value of type `number | string | boolean` as received by the
component's `values` prop (numbers taken integral, as `BigInt` requires). -/
inductive JsValue where
  | num : Int → JsValue
  | str : String → JsValue
  | bool : Bool → JsValue
deriving DecidableEq, Repr

/-- Numeric value of a decimal digit character. -/
def digitVal (c : Char) : Option Nat :=
  if '0' ≤ c ∧ c ≤ '9' then some (c.toNat - 48) else none

/-- Parse a decimal digit sequence, most significant first. -/
def parseDecAux : List Char → Nat → Option Nat
  | [], acc => some acc
  | c :: rest, acc =>
      match digitVal c with
      | some d => parseDecAux rest (acc * 10 + d)
      | none => none

/-- The `BigInt(string)` conversion as used on string elements: an optional sign
followed by decimal digits; any other string fails (throws). -/
def jsBigIntOfString (s : String) : Option Int :=
  match s.toList with
  | [] => none
  | '-' :: rest =>
      if rest = [] then none
      else (parseDecAux rest 0).map (fun n => -(n : Int))
  | l => (parseDecAux l 0).map (fun n => (n : Int))

/-- The builder callback of FHEEncryptWithAbi.onClick (lines 28–33): for each
element of `values`, in order, dispatch on `typeof`: a boolean becomes
`addBool`, a string becomes `add64(BigInt(string))`, everything else (a
number) becomes `add64(BigInt(number))`.  A throwing conversion aborts the
loop.  The ABI argument of the component plays no part here. -/
def buildCalls : List JsValue → Option (List AddOp)
  | [] => some []
  | v :: rest =>
      match v with
      | JsValue.bool b => (buildCalls rest).map (fun calls => AddOp.addBool b :: calls)
      | JsValue.str s =>
          match jsBigIntOfString s with
          | some n => (buildCalls rest).map (fun calls => AddOp.add64 n :: calls)
          | none => none
      | JsValue.num n => (buildCalls rest).map (fun calls => AddOp.add64 n :: calls)

/- ----------------------------------------------------------------------
FHEDecryptButton (src/unnamed/part_001): the decrypt flow of the onClick
handler, combining loadOrSign and userDecryptWithSignature.
---------------------------------------------------------------------- -/

/-- JS `Array.from(new Set(...))`: de-duplicate keeping first occurrences, in
order (JS Set iteration order). -/
def dedupFirstAux : List String → List String → List String
  | [], _ => []
  | a :: rest, seen =>
      if a ∈ seen then dedupFirstAux rest seen
      else a :: dedupFirstAux rest (a :: seen)

/-- JS `Array.from(new Set(l))` for a list of strings. -/
def dedupFirst (l : List String) : List String :=
  dedupFirstAux l []

/-- The observable outcome of one successful run of the FHEDecryptButton
onClick handler: the contract-address list the decryption signature was
requested for, the relay calls performed, and the returned results. -/
structure DecryptFlowTrace where
  signatureRequestAddresses : List String
  relayCalls : List UserDecryptCall
  results : List (String × ClearValue)

/-- FHEDecryptButton.onClick (src/unnamed/part_001, lines 28–51): with
instance and signer available, if `requests` is empty nothing happens;
otherwise compute `uniqueAddresses = Array.from(new Set(requests.map(r =>
r.contractAddress)))`, obtain a signature via
`FhevmDecryptionSignature.loadOrSign(instance, uniqueAddresses, signer,
storage)` (modelled by `loadOrSign`), and call `userDecryptWithSignature`
with the original requests and the signature's fields. -/
def decryptFlow (env : SignEnv) (inst : FhevmInstance) (st : SigStorage)
    (user : String) (keyId : String) (requests : List DecryptRequest) :
    Option DecryptFlowTrace :=
  if requests.isEmpty then none
  else
    let uniqueAddresses := dedupFirst (requests.map (fun r => r.contractAddress))
    let sig := (loadOrSign env st user uniqueAddresses keyId).1
    let r := userDecryptWithSignature inst requests
      { privateKey := sig.privateKey
        publicKey := sig.publicKey
        signature := sig.signature
        contractAddresses := sig.contractAddresses
        userAddress := sig.userAddress
        startTimestamp := sig.startTimestamp
        durationDays := sig.durationDays }
    some { signatureRequestAddresses := uniqueAddresses
           relayCalls := r.2
           results := r.1 }

/- ----------------------------------------------------------------------
PRSCompute (custom-contracts/PRSCompute.sol).  Ciphertexts (euint32/ebool)
are embedded by their underlying plaintexts under the idealized FHE
semantics: euint32 values are naturals below 2^32, FHE.add / FHE.mul wrap
modulo 2^32, FHE.gt compares the plaintexts.  Addresses are naturals with 0
standing for address(0).
---------------------------------------------------------------------- -/

/-- Constant `NUM_SNPS = 20`. -/
def NUM_SNPS : Nat := 20

/-- Constant `RISK_THRESHOLD = 50`. -/
def RISK_THRESHOLD : Nat := 50

/-- The initializer of the `effectSizes` storage array. -/
def initialEffectSizes : Fin NUM_SNPS → Nat := fun i =>
  [3, 2, 4, 2, 3, 2, 3, 2, 4, 2, 3, 2, 3, 2, 4, 2, 3, 2, 3, 2].getD i.val 0

/-- The `EncryptedGenotype` struct; `snps` holds the plaintexts of the
encrypted SNP values. -/
structure EncryptedGenotype where
  snps : Fin NUM_SNPS → Nat
  owner : Nat
  timestamp : Nat
  riskComputed : Bool
  prsScore : Nat
  isHighRisk : Bool

/-- A mapping slot never written reads as the all-zero struct. -/
def emptyGenotype : EncryptedGenotype :=
  { snps := fun _ => 0, owner := 0, timestamp := 0, riskComputed := false
    prsScore := 0, isHighRisk := false }

/-- The contract's storage: `effectSizes` and the `genotypeData` mapping
(individual ids modelled as strings). -/
structure PRSState where
  effectSizes : Fin NUM_SNPS → Nat
  genotypeData : String → EncryptedGenotype

/-- Contract storage right after deployment. -/
def initialPRSState : PRSState :=
  { effectSizes := initialEffectSizes, genotypeData := fun _ => emptyGenotype }

/-- The encrypted PRS accumulation of `computePRS` (lines 99–108): starting
from `FHE.asEuint32(0)`, for each i < 20 multiply the i-th SNP by the i-th
effect size and add it to the running total, each euint32 operation wrapping
modulo 2^32. -/
def prsFold (snps eff : Fin NUM_SNPS → Nat) : Nat :=
  (List.finRange NUM_SNPS).foldl
    (fun acc i => (acc + snps i * eff i % 2 ^ 32) % 2 ^ 32) 0

/-- Function `uploadEncryptedGenotype` (lines 63–85): requires exactly NUM_SNPS
encrypted values and an unused individual id, then stores the decoded SNPs
with the caller as owner. -/
def uploadEncryptedGenotype (s : PRSState) (sender : Nat) (individualId : String)
    (encryptedSnps : List Nat) (timestamp : Nat) : Except String PRSState :=
  if encryptedSnps.length ≠ NUM_SNPS then Except.error "Invalid number of SNPs"
  else if (s.genotypeData individualId).owner ≠ 0 then
    Except.error "Individual already exists"
  else
    let g : EncryptedGenotype :=
      { snps := fun i => (encryptedSnps.getD i.val 0) % 2 ^ 32
        owner := sender
        timestamp := timestamp
        riskComputed := false
        prsScore := 0
        isHighRisk := false }
    Except.ok { s with genotypeData := Function.update s.genotypeData individualId g }

/-- Function `computePRS` (lines 92–127): requires an existing individual whose risk is
not yet computed; computes the encrypted weighted sum, stores it in
`prsScore`, stores `FHE.gt(prs, RISK_THRESHOLD)` in `isHighRisk`, and sets
`riskComputed`.  A failing `require` reverts, leaving storage unchanged. -/
def computePRS (s : PRSState) (individualId : String) : Except String PRSState :=
  if (s.genotypeData individualId).owner = 0 then Except.error "Individual not found"
  else if (s.genotypeData individualId).riskComputed then
    Except.error "Risk already computed"
  else
    let g := s.genotypeData individualId
    let prs := prsFold g.snps s.effectSizes
    let g2 : EncryptedGenotype :=
      { g with prsScore := prs
               isHighRisk := decide (prs > RISK_THRESHOLD)
               riskComputed := true }
    Except.ok { s with genotypeData := Function.update s.genotypeData individualId g2 }

/-- Function `updateEffectSize` (lines 174–178): requires `snpIndex < NUM_SNPS` and
then overwrites that entry; there is no caller restriction, so the (unused)
`sender` argument records that any caller reaches the same outcome. -/
def updateEffectSize (s : PRSState) (sender : Nat) (snpIndex : Nat)
    (newValue : Nat) : Except String PRSState :=
  if h : snpIndex < NUM_SNPS then
    Except.ok { s with
      effectSizes := Function.update s.effectSizes ⟨snpIndex, h⟩ (newValue % 2 ^ 32) }
  else Except.error "Invalid SNP index"

/- Concrete sample values used by counterexamples and witnesses. -/

/-- A sample relay: answers every user decrypt with a fixed singleton mapping
and every public decrypt by echoing the handles with `true`. -/
def exInstance : FhevmInstance :=
  { userDecrypt := fun _ => [("0xh1", ClearValue.bool true)]
    publicDecrypt := fun reqs => reqs.map fun r => (r.handle, ClearValue.bool true) }

/-- A sample request against contract 0xaa. -/
def exRequestAA : DecryptRequest :=
  { handle := "0xh1", contractAddress := "0xaa" }

/-- A sample signature whose scope is only contract 0xbb. -/
def sigScopedBB : UserDecryptSignature :=
  { privateKey := "priv"
    publicKey := "pub"
    signature := "0xsig"
    contractAddresses := ["0xbb"]
    userAddress := "0xuser"
    startTimestamp := 100
    durationDays := 7 }

/-- A sample signing environment (policy duration 365 days). -/
def exEnv : SignEnv :=
  { now := 1000
    ephemeralPrivateKey := "ephPriv"
    ephemeralPublicKey := "ephPub"
    walletSign := fun _ _ _ _ => "0xwalletSig"
    durationDaysPolicy := 365 }

/-- A sample contract state holding one uploaded genotype (all SNPs 1,
owner 5) under every individual id. -/
def exGenotypeState : PRSState :=
  { effectSizes := initialEffectSizes
    genotypeData := fun _ =>
      { snps := fun _ => 1, owner := 5, timestamp := 0, riskComputed := false
        prsScore := 0, isHighRisk := false } }

/-- The builder state after adding `true`, `5`, `1000000` to a fresh builder
for contract 0xaa and user 0xbb (the §8 scenario of the spec). -/
def exBuilder3 : EncryptedInputBuilder :=
  { contractAddress := "0xaa"
    userAddress := "0xbb"
    values := [PlainValue.bool true, PlainValue.uint 64 5,
      PlainValue.uint 64 1000000] }

/- ----------------------------------------------------------------------
Theorems.
---------------------------------------------------------------------- -/

theorem mutableReqs_eq (requests : List DecryptRequest) :
    mutableReqs requests = requests := by
  unfold mutableReqs
  simp

/-- C1 counterexample: a userDecrypt call whose request targets contract
0xaa while the signature's scope is only {0xbb} does not fail with
ScopeMismatch: the source performs the relay call anyway (trace length 1)
and returns the relay's answer. -/
theorem c1_scope_counterexample :
    exRequestAA.contractAddress ∉ sigScopedBB.contractAddresses ∧
    (userDecryptWithSignature exInstance [exRequestAA] sigScopedBB).2.length = 1 ∧
    (userDecryptWithSignature exInstance [exRequestAA] sigScopedBB).1 =
      exInstance.userDecrypt (userDecryptCallOf [exRequestAA] sigScopedBB) := by
  exact ⟨by decide, rfl, rfl⟩

/-- C1 (amended): `userDecryptWithSignature` performs no scope precondition
check.  Even when some request's contractAddress is not a member of
`sig.contractAddresses`, it performs exactly the one relay call forwarding
the requests and the signature's fields, and returns the relay's result; no
ScopeMismatch failure path exists in this function. -/
theorem c1_no_scope_check (inst : FhevmInstance)
    (requests : List DecryptRequest) (sig : UserDecryptSignature)
    (h : ∃ r ∈ requests, r.contractAddress ∉ sig.contractAddresses) :
    (userDecryptWithSignature inst requests sig).2 =
      [userDecryptCallOf requests sig] ∧
    (userDecryptWithSignature inst requests sig).1 =
      inst.userDecrypt (userDecryptCallOf requests sig) :=
  ⟨rfl, rfl⟩

theorem c1_no_scope_check_witness :
    (∃ r ∈ [exRequestAA],
      r.contractAddress ∉ sigScopedBB.contractAddresses) ∧
    ((userDecryptWithSignature exInstance [exRequestAA] sigScopedBB).2 =
      [userDecryptCallOf [exRequestAA] sigScopedBB] ∧
     (userDecryptWithSignature exInstance [exRequestAA] sigScopedBB).1 =
      exInstance.userDecrypt (userDecryptCallOf [exRequestAA] sigScopedBB)) :=
  ⟨by decide,
   c1_no_scope_check exInstance [exRequestAA] sigScopedBB (by decide)⟩

/-- C4: a successful `userDecryptWithSignature` performs exactly one relay
call; that call carries the original requests (handles and contract
addresses preserved, in order) followed by the signature's fields in the
relay's declared order, and the function returns the relay's
handle-to-cleartext mapping unchanged. -/
theorem c4_relay_forwarding (inst : FhevmInstance)
    (requests : List DecryptRequest) (sig : UserDecryptSignature) :
    (userDecryptWithSignature inst requests sig).2 =
      [userDecryptCallOf requests sig] ∧
    (userDecryptCallOf requests sig).requests = requests ∧
    (userDecryptCallOf requests sig).privateKey = sig.privateKey ∧
    (userDecryptCallOf requests sig).publicKey = sig.publicKey ∧
    (userDecryptCallOf requests sig).walletSignature = sig.signature ∧
    (userDecryptCallOf requests sig).contractAddresses = sig.contractAddresses ∧
    (userDecryptCallOf requests sig).userAddress = sig.userAddress ∧
    (userDecryptCallOf requests sig).startTimestamp = sig.startTimestamp ∧
    (userDecryptCallOf requests sig).durationDays = sig.durationDays ∧
    (userDecryptWithSignature inst requests sig).1 =
      inst.userDecrypt (userDecryptCallOf requests sig) :=
  ⟨rfl, mutableReqs_eq requests, rfl, rfl, rfl, rfl, rfl, rfl, rfl, rfl⟩

/-- C7: `publicDecrypt` forwards exactly the given requests to the
instance's publicDecrypt (one relay call whose payload is nothing but the
request list — no signature, key material, or user address exists in its
type) and returns the resulting mapping unchanged. -/
theorem c7_publicDecrypt_forwarding (inst : FhevmInstance)
    (requests : List DecryptRequest) :
    (publicDecrypt inst requests).2 = [requests] ∧
    (publicDecrypt inst requests).1 = inst.publicDecrypt requests := by
  constructor
  · show [mutableReqs requests] = [requests]
    rw [mutableReqs_eq]
  · show inst.publicDecrypt (mutableReqs requests) = _
    rw [mutableReqs_eq]

/-- C2: the validity window of a DecryptionSignature. -/
theorem c2_signature_validity (sig : UserDecryptSignature) (addrs : List String)
    (hD : 0 < sig.durationDays)
    (hm : ∀ a ∈ addrs, a ∈ sig.contractAddresses) :
    (∀ t, sig.startTimestamp ≤ t →
        t < sig.startTimestamp + sig.durationDays * 86400 →
        signatureValidFor sig addrs t = true) ∧
    signatureValidFor sig addrs sig.startTimestamp = true ∧
    signatureValidFor sig addrs
      (sig.startTimestamp + sig.durationDays * 86400 - 1) = true ∧
    (∀ t, sig.startTimestamp + sig.durationDays * 86400 ≤ t →
        signatureValidFor sig addrs t = false) ∧
    (∀ t, signatureValidFor sig addrs t = true ↔
        sig.startTimestamp ≤ t ∧
          t < sig.startTimestamp + sig.durationDays * 86400) ∧
    (∀ t (other : List String), (∃ a ∈ other, a ∉ sig.contractAddresses) →
        signatureValidFor sig other t = false) := by
  refine ⟨?_, ?_, ?_, ?_, ?_, ?_⟩
  · intro t h1 h2
    simp only [signatureValidFor, signatureValidAt, Bool.and_eq_true,
      decide_eq_true_eq]
    exact ⟨⟨h1, h2⟩, hm⟩
  · simp only [signatureValidFor, signatureValidAt, Bool.and_eq_true,
      decide_eq_true_eq]
    exact ⟨⟨Nat.le_refl _, by omega⟩, hm⟩
  · simp only [signatureValidFor, signatureValidAt, Bool.and_eq_true,
      decide_eq_true_eq]
    refine ⟨⟨?_, ?_⟩, hm⟩ <;> omega
  · intro t ht
    simp only [signatureValidFor, signatureValidAt,
      Bool.and_eq_false_iff, decide_eq_false_iff_not]
    left
    omega
  · intro t
    simp only [signatureValidFor, signatureValidAt, Bool.and_eq_true,
      decide_eq_true_eq]
    constructor
    · rintro ⟨⟨h1, h2⟩, _⟩
      exact ⟨h1, h2⟩
    · rintro ⟨h1, h2⟩
      exact ⟨⟨h1, h2⟩, hm⟩
  · intro t other hother
    simp only [signatureValidFor, signatureValidAt,
      Bool.and_eq_false_iff, decide_eq_false_iff_not]
    right
    intro hall
    obtain ⟨a, ha, hnot⟩ := hother
    exact hnot (hall a ha)

theorem c2_signature_validity_witness :
    0 < sigScopedBB.durationDays ∧
    (∀ a ∈ ["0xbb"], a ∈ sigScopedBB.contractAddresses) ∧
    ((∀ t, sigScopedBB.startTimestamp ≤ t →
        t < sigScopedBB.startTimestamp + sigScopedBB.durationDays * 86400 →
        signatureValidFor sigScopedBB ["0xbb"] t = true) ∧
     signatureValidFor sigScopedBB ["0xbb"] sigScopedBB.startTimestamp = true ∧
     signatureValidFor sigScopedBB ["0xbb"]
       (sigScopedBB.startTimestamp + sigScopedBB.durationDays * 86400 - 1) = true ∧
     (∀ t, sigScopedBB.startTimestamp + sigScopedBB.durationDays * 86400 ≤ t →
        signatureValidFor sigScopedBB ["0xbb"] t = false) ∧
     (∀ t, signatureValidFor sigScopedBB ["0xbb"] t = true ↔
        sigScopedBB.startTimestamp ≤ t ∧
          t < sigScopedBB.startTimestamp + sigScopedBB.durationDays * 86400) ∧
     (∀ t (other : List String), (∃ a ∈ other, a ∉ sigScopedBB.contractAddresses) →
        signatureValidFor sigScopedBB other t = false)) :=
  ⟨by decide, by decide,
   c2_signature_validity sigScopedBB ["0xbb"] (by decide) (by decide)⟩

/-- A freshly signed signature is unexpired at the time it was signed,
provided the policy duration is positive. -/
theorem freshSignature_valid (env : SignEnv) (user : String)
    (normAddrs : List String) (hpol : 0 < env.durationDaysPolicy) :
    signatureValidAt (freshSignature env user normAddrs) env.now = true := by
  simp only [signatureValidAt, freshSignature, decide_eq_true_eq]
  constructor
  · exact Nat.le_refl _
  · have : 0 < env.durationDaysPolicy * 86400 := by positivity
    omega

/-- C3: `loadOrSign` caching.  A stored unexpired signature for the exact
cache key is returned with no signing prompt and no storage change; and two
immediate `loadOrSign` calls for the same (user, contract set, key id) return
the identical signature with at most one signing prompt in total. -/
theorem c3_loadOrSign_cache (env : SignEnv) (st : SigStorage) (user : String)
    (addrs : List String) (keyId : String)
    (hpol : 0 < env.durationDaysPolicy) :
    (∀ sig, storeLookup st (user, normalizeAddresses addrs, keyId) = some sig →
        signatureValidAt sig env.now = true →
        loadOrSign env st user addrs keyId = (sig, st, 0)) ∧
    (loadOrSign env (loadOrSign env st user addrs keyId).2.1 user addrs keyId).1 =
      (loadOrSign env st user addrs keyId).1 ∧
    (loadOrSign env st user addrs keyId).2.2 +
      (loadOrSign env (loadOrSign env st user addrs keyId).2.1 user addrs keyId).2.2
      ≤ 1 := by
  constructor
  · intro sig hlook hvalid
    simp [loadOrSign, hlook, hvalid]
  · cases hlook : storeLookup st (user, normalizeAddresses addrs, keyId) with
    | some sig =>
        by_cases hvalid : signatureValidAt sig env.now = true
        · simp [loadOrSign, hlook, hvalid]
        · simp only [Bool.not_eq_true] at hvalid
          simp [loadOrSign, hlook, hvalid, storeInsert, storeLookup,
            freshSignature_valid env user (normalizeAddresses addrs) hpol]
    | none =>
        simp [loadOrSign, hlook, storeInsert, storeLookup,
          freshSignature_valid env user (normalizeAddresses addrs) hpol]

theorem c3_loadOrSign_cache_witness :
    0 < exEnv.durationDaysPolicy ∧
    ((∀ sig, storeLookup [] ("0xuser", normalizeAddresses ["0xBB"], "k") = some sig →
        signatureValidAt sig exEnv.now = true →
        loadOrSign exEnv [] "0xuser" ["0xBB"] "k" = (sig, [], 0)) ∧
     (loadOrSign exEnv (loadOrSign exEnv [] "0xuser" ["0xBB"] "k").2.1
        "0xuser" ["0xBB"] "k").1 =
       (loadOrSign exEnv [] "0xuser" ["0xBB"] "k").1 ∧
     (loadOrSign exEnv [] "0xuser" ["0xBB"] "k").2.2 +
       (loadOrSign exEnv (loadOrSign exEnv [] "0xuser" ["0xBB"] "k").2.1
         "0xuser" ["0xBB"] "k").2.2 ≤ 1) :=
  ⟨by decide, c3_loadOrSign_cache exEnv [] "0xuser" ["0xBB"] "k" (by decide)⟩


/-- Each successful add-call appends exactly one value to the builder. -/
theorem applyAdds_length (ops : List AddOp) (b b2 : EncryptedInputBuilder)
    (h : applyAdds b ops = Except.ok b2) :
    b2.values.length = b.values.length + ops.length := by
  induction ops generalizing b with
  | nil =>
      simp only [applyAdds] at h
      cases h
      simp
  | cons op rest ih =>
      simp only [applyAdds] at h
      cases hstep : applyAdd b op with
      | error e => rw [hstep] at h; simp [bind, Except.bind] at h
      | ok b1 =>
          rw [hstep] at h
          simp only [bind, Except.bind] at h
          have hlen : b1.values.length = b.values.length + 1 := by
            cases op with
            | addBool v => cases hstep; simp
            | add32 v =>
                simp only [applyAdd] at hstep
                split at hstep
                · cases hstep; simp
                · cases hstep
            | add64 v =>
                simp only [applyAdd] at hstep
                split at hstep
                · cases hstep; simp
                · cases hstep
            | addAddress v => cases hstep; simp
          have := ih b1 h
          simp only [List.length_cons]
          omega

/-- The batch proof is never the empty string. -/
theorem mkProof_ne_empty (rand : Nat) (b : EncryptedInputBuilder) :
    mkProof rand b ≠ "" := by
  intro h
  have h6 : ("proof:").length = 6 := rfl
  have h0 : ("").length = 0 := rfl
  have := congrArg String.length h
  simp only [mkProof, String.length_append] at this
  omega

/-- C5: after N successful add-calls on a fresh builder, `encrypt()` yields
exactly N handles — the i-th handle belonging to the i-th add-call, in
insertion order — together with exactly one non-empty input proof covering
the batch. -/
theorem c5_encrypt_handles (c u : String) (ops : List AddOp)
    (b : EncryptedInputBuilder) (rand : Nat)
    (h : applyAdds (createInput c u) ops = Except.ok b) :
    (encryptBuilder b rand).handles.length = ops.length ∧
    (∀ i, i < ops.length →
      (encryptBuilder b rand).handles[i]? = some (mkHandle rand i)) ∧
    (encryptBuilder b rand).inputProof ≠ "" := by
  have hlen : b.values.length = ops.length := by
    have := applyAdds_length ops (createInput c u) b h
    simpa [createInput] using this
  refine ⟨?_, ?_, ?_⟩
  · simp [encryptBuilder, hlen]
  · intro i hi
    simp [encryptBuilder, hlen, List.getElem?_map, List.getElem?_range, hi]
  · exact mkProof_ne_empty rand b

theorem c5_encrypt_handles_witness :
    applyAdds (createInput "0xaa" "0xbb")
      [AddOp.addBool true, AddOp.add64 5, AddOp.add64 1000000] =
      Except.ok exBuilder3 ∧
    ((encryptBuilder exBuilder3 9).handles.length = 3 ∧
     (∀ i, i < 3 →
       (encryptBuilder exBuilder3 9).handles[i]? = some (mkHandle 9 i)) ∧
     (encryptBuilder exBuilder3 9).inputProof ≠ "") :=
  ⟨by rfl,
   c5_encrypt_handles "0xaa" "0xbb"
     [AddOp.addBool true, AddOp.add64 5, AddOp.add64 1000000] exBuilder3 9
     (by rfl)⟩

/-- Membership in the de-duplicated list. -/
theorem mem_dedupFirstAux (l : List String) :
    ∀ (seen : List String) (a : String),
      a ∈ dedupFirstAux l seen ↔ a ∈ l ∧ a ∉ seen := by
  induction l with
  | nil => intro seen a; simp [dedupFirstAux]
  | cons b rest ih =>
      intro seen a
      simp only [dedupFirstAux]
      by_cases hb : b ∈ seen
      · simp only [if_pos hb, ih seen a, List.mem_cons]
        constructor
        · rintro ⟨hr, hs⟩; exact ⟨Or.inr hr, hs⟩
        · rintro ⟨hba, hs⟩
          refine ⟨?_, hs⟩
          cases hba with
          | inl heq => exact absurd (heq ▸ hb) hs
          | inr hr => exact hr
      · simp only [if_neg hb, List.mem_cons, ih (b :: seen) a, List.mem_cons]
        constructor
        · rintro (heq | ⟨hr, hs⟩)
          · exact ⟨Or.inl heq, heq ▸ hb⟩
          · exact ⟨Or.inr hr, fun hseen => hs (Or.inr hseen)⟩
        · rintro ⟨hba, hs⟩
          cases hba with
          | inl heq => exact Or.inl heq
          | inr hr =>
              by_cases hab : a = b
              · exact Or.inl hab
              · exact Or.inr ⟨hr, fun hx => (hx.elim hab hs)⟩

/-- The de-duplicated list has no duplicates. -/
theorem nodup_dedupFirstAux (l : List String) :
    ∀ seen : List String, (dedupFirstAux l seen).Nodup := by
  induction l with
  | nil => intro seen; simp [dedupFirstAux]
  | cons b rest ih =>
      intro seen
      simp only [dedupFirstAux]
      by_cases hb : b ∈ seen
      · simpa [if_pos hb] using ih seen
      · rw [if_neg hb]
        refine List.nodup_cons.mpr ⟨?_, ih (b :: seen)⟩
        intro hmem
        rw [mem_dedupFirstAux] at hmem
        exact hmem.2 (List.mem_cons_self b seen)

theorem mem_dedupFirst (l : List String) (a : String) :
    a ∈ dedupFirst l ↔ a ∈ l := by
  simp [dedupFirst, mem_dedupFirstAux]

theorem nodup_dedupFirst (l : List String) : (dedupFirst l).Nodup :=
  nodup_dedupFirstAux l []

/-- C6: with a non-empty request list, the decrypt flow asks `loadOrSign` for
a signature scoped to exactly the distinct contract addresses occurring among
the requests (no duplicates, same address set), then performs exactly one
relay call carrying the original requests and the fields of that very
signature; in particular every request's contractAddress is in the set the
signature was requested for. -/
theorem c6_decrypt_flow (env : SignEnv) (inst : FhevmInstance)
    (st : SigStorage) (user keyId : String) (requests : List DecryptRequest)
    (h : requests ≠ []) :
    ∃ tr, decryptFlow env inst st user keyId requests = some tr ∧
      tr.signatureRequestAddresses.Nodup ∧
      (∀ a, a ∈ tr.signatureRequestAddresses ↔
        ∃ r ∈ requests, r.contractAddress = a) ∧
      (∀ r ∈ requests, r.contractAddress ∈ tr.signatureRequestAddresses) ∧
      (tr.relayCalls.length = 1 ∧
       ∀ c ∈ tr.relayCalls,
         c.requests = requests ∧
         c.privateKey =
           (loadOrSign env st user tr.signatureRequestAddresses keyId).1.privateKey ∧
         c.publicKey =
           (loadOrSign env st user tr.signatureRequestAddresses keyId).1.publicKey ∧
         c.walletSignature =
           (loadOrSign env st user tr.signatureRequestAddresses keyId).1.signature ∧
         c.contractAddresses =
           (loadOrSign env st user tr.signatureRequestAddresses keyId).1.contractAddresses ∧
         c.userAddress =
           (loadOrSign env st user tr.signatureRequestAddresses keyId).1.userAddress ∧
         c.startTimestamp =
           (loadOrSign env st user tr.signatureRequestAddresses keyId).1.startTimestamp ∧
         c.durationDays =
           (loadOrSign env st user tr.signatureRequestAddresses keyId).1.durationDays) := by
  obtain ⟨r0, rest, rfl⟩ : ∃ r0 rest, requests = r0 :: rest := by
    cases requests with
    | nil => exact absurd rfl h
    | cons r rest => exact ⟨r, rest, rfl⟩
  refine ⟨_, rfl, ?_, ?_, ?_, rfl, ?_⟩
  · exact nodup_dedupFirst _
  · intro a
    refine Iff.trans (mem_dedupFirst _ a) ?_
    constructor
    · intro ha
      rcases List.mem_map.mp ha with ⟨r, hr, hra⟩
      exact ⟨r, hr, hra⟩
    · rintro ⟨r, hr, hra⟩
      exact List.mem_map.mpr ⟨r, hr, hra⟩
  · intro r hr
    exact (mem_dedupFirst _ _).mpr (List.mem_map.mpr ⟨r, hr, rfl⟩)
  · intro c hc
    have hc2 : c = userDecryptCallOf (r0 :: rest)
        ((loadOrSign env st user
          (dedupFirst ((r0 :: rest).map fun r => r.contractAddress)) keyId).1) :=
      List.mem_singleton.mp hc
    rw [hc2]
    exact ⟨mutableReqs_eq _, rfl, rfl, rfl, rfl, rfl, rfl, rfl⟩

theorem c6_decrypt_flow_witness :
    ([exRequestAA] : List DecryptRequest) ≠ [] ∧
    (∃ tr, decryptFlow exEnv exInstance [] "0xuser" "k" [exRequestAA] = some tr ∧
      tr.signatureRequestAddresses.Nodup ∧
      (∀ a, a ∈ tr.signatureRequestAddresses ↔
        ∃ r ∈ [exRequestAA], r.contractAddress = a) ∧
      (∀ r ∈ [exRequestAA],
        r.contractAddress ∈ tr.signatureRequestAddresses) ∧
      (tr.relayCalls.length = 1 ∧
       ∀ c ∈ tr.relayCalls,
         c.requests = [exRequestAA] ∧
         c.privateKey =
           (loadOrSign exEnv [] "0xuser" tr.signatureRequestAddresses "k").1.privateKey ∧
         c.publicKey =
           (loadOrSign exEnv [] "0xuser" tr.signatureRequestAddresses "k").1.publicKey ∧
         c.walletSignature =
           (loadOrSign exEnv [] "0xuser" tr.signatureRequestAddresses "k").1.signature ∧
         c.contractAddresses =
           (loadOrSign exEnv [] "0xuser" tr.signatureRequestAddresses "k").1.contractAddresses ∧
         c.userAddress =
           (loadOrSign exEnv [] "0xuser" tr.signatureRequestAddresses "k").1.userAddress ∧
         c.startTimestamp =
           (loadOrSign exEnv [] "0xuser" tr.signatureRequestAddresses "k").1.startTimestamp ∧
         c.durationDays =
           (loadOrSign exEnv [] "0xuser" tr.signatureRequestAddresses "k").1.durationDays)) :=
  ⟨by simp,
   c6_decrypt_flow exEnv exInstance [] "0xuser" "k" [exRequestAA] (by simp)⟩

/-- C8: in the successful run of FHEEncryptWithAbi's builder callback, every
element of `values` produces exactly one builder add-call, in array order: a
boolean element becomes `addBool`, and every number or string element becomes
`add64` of its BigInt conversion — so every non-boolean value is encrypted at
64-bit width (the callback never consults the ABI's declared parameter
types). -/
theorem c8_abi_add_calls (values : List JsValue) (calls : List AddOp)
    (h : buildCalls values = some calls) :
    calls.length = values.length ∧
    (∀ (i : Nat) (b : Bool), values[i]? = some (JsValue.bool b) →
      calls[i]? = some (AddOp.addBool b)) ∧
    (∀ (i : Nat) (n : Int), values[i]? = some (JsValue.num n) →
      calls[i]? = some (AddOp.add64 n)) ∧
    (∀ (i : Nat) (s : String), values[i]? = some (JsValue.str s) →
      ∃ n, jsBigIntOfString s = some n ∧ calls[i]? = some (AddOp.add64 n)) ∧
    (∀ c ∈ calls, (∃ b, c = AddOp.addBool b) ∨ ∃ n, c = AddOp.add64 n) := by
  induction values generalizing calls with
  | nil =>
      simp only [buildCalls, Option.some.injEq] at h
      subst h
      refine ⟨rfl, ?_, ?_, ?_, ?_⟩ <;> simp
  | cons v rest ih =>
      have step : ∃ op cs, buildCalls rest = some cs ∧ calls = op :: cs ∧
          ((∃ b, v = JsValue.bool b ∧ op = AddOp.addBool b) ∨
           (∃ n, v = JsValue.num n ∧ op = AddOp.add64 n) ∨
           (∃ s n, v = JsValue.str s ∧ jsBigIntOfString s = some n ∧
             op = AddOp.add64 n)) := by
        cases v with
        | bool b =>
            simp only [buildCalls, Option.map_eq_some'] at h
            rcases h with ⟨cs, hcs, hcalls⟩
            exact ⟨AddOp.addBool b, cs, hcs, hcalls.symm,
              Or.inl ⟨b, rfl, rfl⟩⟩
        | num n =>
            simp only [buildCalls, Option.map_eq_some'] at h
            rcases h with ⟨cs, hcs, hcalls⟩
            exact ⟨AddOp.add64 n, cs, hcs, hcalls.symm,
              Or.inr (Or.inl ⟨n, rfl, rfl⟩)⟩
        | str s =>
            simp only [buildCalls] at h
            cases hbi : jsBigIntOfString s with
            | none => rw [hbi] at h; cases h
            | some n =>
                rw [hbi] at h
                simp only [Option.map_eq_some'] at h
                rcases h with ⟨cs, hcs, hcalls⟩
                exact ⟨AddOp.add64 n, cs, hcs, hcalls.symm,
                  Or.inr (Or.inr ⟨s, n, rfl, hbi, rfl⟩)⟩
      rcases step with ⟨op, cs, hcs, rfl, hop⟩
      rcases ih cs hcs with ⟨ihlen, ihbool, ihnum, ihstr, ihshape⟩
      refine ⟨by simp [ihlen], ?_, ?_, ?_, ?_⟩
      · intro i b hv
        cases i with
        | zero =>
            simp only [List.getElem?_cons_zero, Option.some.injEq] at hv
            rcases hop with ⟨b2, hveq, hopeq⟩ | ⟨n2, hveq, _⟩ | ⟨s2, n2, hveq, _, _⟩
            · rw [hv] at hveq
              cases hveq
              simp [hopeq]
            · rw [hv] at hveq; cases hveq
            · rw [hv] at hveq; cases hveq
        | succ j =>
            simp only [List.getElem?_cons_succ] at hv ⊢
            exact ihbool j b hv
      · intro i n hv
        cases i with
        | zero =>
            simp only [List.getElem?_cons_zero, Option.some.injEq] at hv
            rcases hop with ⟨b2, hveq, _⟩ | ⟨n2, hveq, hopeq⟩ | ⟨s2, n2, hveq, _, _⟩
            · rw [hv] at hveq; cases hveq
            · rw [hv] at hveq
              cases hveq
              simp [hopeq]
            · rw [hv] at hveq; cases hveq
        | succ j =>
            simp only [List.getElem?_cons_succ] at hv ⊢
            exact ihnum j n hv
      · intro i s hv
        cases i with
        | zero =>
            simp only [List.getElem?_cons_zero, Option.some.injEq] at hv
            rcases hop with ⟨b2, hveq, _⟩ | ⟨n2, hveq, _⟩ |
              ⟨s2, n2, hveq, hbi, hopeq⟩
            · rw [hv] at hveq; cases hveq
            · rw [hv] at hveq; cases hveq
            · rw [hv] at hveq
              cases hveq
              exact ⟨n2, hbi, by simp [hopeq]⟩
        | succ j =>
            simp only [List.getElem?_cons_succ] at hv ⊢
            exact ihstr j s hv
      · intro c hc
        rcases List.mem_cons.mp hc with hc0 | hcrest
        · subst hc0
          rcases hop with ⟨b2, _, hopeq⟩ | ⟨n2, _, hopeq⟩ | ⟨s2, n2, _, _, hopeq⟩
          · exact Or.inl ⟨b2, hopeq⟩
          · exact Or.inr ⟨n2, hopeq⟩
          · exact Or.inr ⟨n2, hopeq⟩
        · exact ihshape c hcrest

theorem c8_abi_add_calls_witness :
    buildCalls [JsValue.bool true, JsValue.num 5, JsValue.str "7"] =
      some [AddOp.addBool true, AddOp.add64 5, AddOp.add64 7] ∧
    (([AddOp.addBool true, AddOp.add64 5, AddOp.add64 7] : List AddOp).length =
      ([JsValue.bool true, JsValue.num 5, JsValue.str "7"] : List JsValue).length ∧
     (∀ (i : Nat) (b : Bool), ([JsValue.bool true, JsValue.num 5, JsValue.str "7"] :
        List JsValue)[i]? = some (JsValue.bool b) →
        ([AddOp.addBool true, AddOp.add64 5, AddOp.add64 7] :
          List AddOp)[i]? = some (AddOp.addBool b)) ∧
     (∀ (i : Nat) (n : Int), ([JsValue.bool true, JsValue.num 5, JsValue.str "7"] :
        List JsValue)[i]? = some (JsValue.num n) →
        ([AddOp.addBool true, AddOp.add64 5, AddOp.add64 7] :
          List AddOp)[i]? = some (AddOp.add64 n)) ∧
     (∀ (i : Nat) (s : String), ([JsValue.bool true, JsValue.num 5, JsValue.str "7"] :
        List JsValue)[i]? = some (JsValue.str s) →
        ∃ n, jsBigIntOfString s = some n ∧
          ([AddOp.addBool true, AddOp.add64 5, AddOp.add64 7] :
            List AddOp)[i]? = some (AddOp.add64 n)) ∧
     (∀ c ∈ ([AddOp.addBool true, AddOp.add64 5, AddOp.add64 7] : List AddOp),
        (∃ b, c = AddOp.addBool b) ∨ ∃ n, c = AddOp.add64 n)) :=
  ⟨by decide,
   c8_abi_add_calls [JsValue.bool true, JsValue.num 5, JsValue.str "7"]
     [AddOp.addBool true, AddOp.add64 5, AddOp.add64 7] (by decide)⟩

/-- A left fold of wrapped additions equals the plain sum as long as the
plain sum stays below the modulus. -/
theorem foldl_mod_eq_sum {α : Type} (f : α → Nat) (M : Nat) :
    ∀ (l : List α) (acc : Nat), acc + (l.map f).sum < M →
      l.foldl (fun acc2 i => (acc2 + f i % M) % M) acc = acc + (l.map f).sum := by
  intro l
  induction l with
  | nil => intro acc h; simp
  | cons i rest ih =>
      intro acc h
      simp only [List.map_cons, List.sum_cons] at h ⊢
      simp only [List.foldl_cons]
      have hfi : f i < M := by omega
      rw [Nat.mod_eq_of_lt hfi]
      have hacc : acc + f i < M := by omega
      rw [Nat.mod_eq_of_lt hacc]
      rw [ih (acc + f i) (by omega)]
      omega

/-- Without 32-bit overflow, the encrypted PRS accumulation computes the
plain weighted sum. -/
theorem prsFold_eq_sum (snps eff : Fin NUM_SNPS → Nat)
    (hsum : ((List.finRange NUM_SNPS).map (fun i => snps i * eff i)).sum < 2 ^ 32) :
    prsFold snps eff =
      ((List.finRange NUM_SNPS).map (fun i => snps i * eff i)).sum := by
  have := foldl_mod_eq_sum (fun i => snps i * eff i) (2 ^ 32)
    (List.finRange NUM_SNPS) 0 (by simpa using hsum)
  simpa [prsFold] using this

/-- C9: for an uploaded individual whose risk is not yet computed,
`computePRS` succeeds; afterwards the stored `prsScore` is the encrypted
weighted sum of the SNPs by the effect sizes (euint32 arithmetic, equal to
the plain sum whenever that sum fits in 32 bits), `isHighRisk` is the
encrypted comparison of that sum with RISK_THRESHOLD = 50, and
`riskComputed` is true, with SNPs and owner untouched; a subsequent
`computePRS` for the same individual reverts with "Risk already computed"
(a revert returns no new state, so the stored record is unchanged). -/
theorem c9_computePRS (s : PRSState) (individualId : String)
    (howner : (s.genotypeData individualId).owner ≠ 0)
    (hnotyet : (s.genotypeData individualId).riskComputed = false) :
    ∃ s2, computePRS s individualId = Except.ok s2 ∧
      (s2.genotypeData individualId).prsScore =
        prsFold (s.genotypeData individualId).snps s.effectSizes ∧
      (s2.genotypeData individualId).isHighRisk =
        decide (prsFold (s.genotypeData individualId).snps s.effectSizes >
          RISK_THRESHOLD) ∧
      (s2.genotypeData individualId).riskComputed = true ∧
      (s2.genotypeData individualId).snps = (s.genotypeData individualId).snps ∧
      (s2.genotypeData individualId).owner = (s.genotypeData individualId).owner ∧
      computePRS s2 individualId = Except.error "Risk already computed" ∧
      (((List.finRange NUM_SNPS).map
          (fun i => (s.genotypeData individualId).snps i * s.effectSizes i)).sum <
          2 ^ 32 →
        prsFold (s.genotypeData individualId).snps s.effectSizes =
          ((List.finRange NUM_SNPS).map
            (fun i => (s.genotypeData individualId).snps i * s.effectSizes i)).sum) := by
  refine ⟨PRSState.mk s.effectSizes (Function.update s.genotypeData individualId
    (EncryptedGenotype.mk (s.genotypeData individualId).snps
      (s.genotypeData individualId).owner
      (s.genotypeData individualId).timestamp
      true
      (prsFold (s.genotypeData individualId).snps s.effectSizes)
      (decide (prsFold (s.genotypeData individualId).snps s.effectSizes >
        RISK_THRESHOLD)))), ?_, ?_, ?_, ?_, ?_, ?_, ?_, ?_⟩
  · simp [computePRS, howner, hnotyet]
  · simp [Function.update_same]
  · simp [Function.update_same]
  · simp [Function.update_same]
  · simp [Function.update_same]
  · simp [Function.update_same]
  · simp [computePRS, Function.update_same, howner]
  · exact prsFold_eq_sum _ _

theorem c9_computePRS_witness :
    (exGenotypeState.genotypeData "id1").owner ≠ 0 ∧
    (exGenotypeState.genotypeData "id1").riskComputed = false ∧
    (∃ s2, computePRS exGenotypeState "id1" = Except.ok s2 ∧
      (s2.genotypeData "id1").prsScore =
        prsFold (exGenotypeState.genotypeData "id1").snps
          exGenotypeState.effectSizes ∧
      (s2.genotypeData "id1").isHighRisk =
        decide (prsFold (exGenotypeState.genotypeData "id1").snps
          exGenotypeState.effectSizes > RISK_THRESHOLD) ∧
      (s2.genotypeData "id1").riskComputed = true ∧
      (s2.genotypeData "id1").snps = (exGenotypeState.genotypeData "id1").snps ∧
      (s2.genotypeData "id1").owner = (exGenotypeState.genotypeData "id1").owner ∧
      computePRS s2 "id1" = Except.error "Risk already computed" ∧
      (((List.finRange NUM_SNPS).map
          (fun i => (exGenotypeState.genotypeData "id1").snps i *
            exGenotypeState.effectSizes i)).sum < 2 ^ 32 →
        prsFold (exGenotypeState.genotypeData "id1").snps
          exGenotypeState.effectSizes =
          ((List.finRange NUM_SNPS).map
            (fun i => (exGenotypeState.genotypeData "id1").snps i *
              exGenotypeState.effectSizes i)).sum)) :=
  ⟨by decide, by decide,
   c9_computePRS exGenotypeState "id1" (by decide) (by decide)⟩

/-- C10: `updateEffectSize` has no caller restriction — every sender reaches
the same outcome; for `snpIndex < 20` it succeeds, setting that entry to
`newValue` and leaving every other entry and the genotype mapping unchanged;
and it reverts with "Invalid SNP index" exactly when `snpIndex >= 20` (a
revert returns no new state, so storage is unchanged). -/
theorem c10_updateEffectSize (s : PRSState) (sender sender2 : Nat)
    (snpIndex newValue : Nat) (hv : newValue < 2 ^ 32) :
    updateEffectSize s sender snpIndex newValue =
      updateEffectSize s sender2 snpIndex newValue ∧
    (∀ h : snpIndex < NUM_SNPS,
      ∃ s2, updateEffectSize s sender snpIndex newValue = Except.ok s2 ∧
        s2.effectSizes ⟨snpIndex, h⟩ = newValue ∧
        (∀ j : Fin NUM_SNPS, j.val ≠ snpIndex →
          s2.effectSizes j = s.effectSizes j) ∧
        s2.genotypeData = s.genotypeData) ∧
    (NUM_SNPS ≤ snpIndex →
      updateEffectSize s sender snpIndex newValue =
        Except.error "Invalid SNP index") := by
  refine ⟨rfl, ?_, ?_⟩
  · intro h
    refine ⟨{ s with effectSizes :=
      Function.update s.effectSizes ⟨snpIndex, h⟩ (newValue % 2 ^ 32) },
      ?_, ?_, ?_, ?_⟩
    · simp [updateEffectSize, h]
    · simp only [Function.update_same]
      omega
    · intro j hj
      exact Function.update_noteq (Fin.ne_of_val_ne hj) _ _
    · rfl
  · intro h3
    simp [updateEffectSize, Nat.not_lt.mpr h3]

theorem c10_updateEffectSize_witness :
    7 < 2 ^ 32 ∧
    (updateEffectSize initialPRSState 1 3 7 =
      updateEffectSize initialPRSState 2 3 7 ∧
     (∀ h : 3 < NUM_SNPS,
       ∃ s2, updateEffectSize initialPRSState 1 3 7 = Except.ok s2 ∧
         s2.effectSizes ⟨3, h⟩ = 7 ∧
         (∀ j : Fin NUM_SNPS, j.val ≠ 3 →
           s2.effectSizes j = initialPRSState.effectSizes j) ∧
         s2.genotypeData = initialPRSState.genotypeData) ∧
     (NUM_SNPS ≤ 3 →
       updateEffectSize initialPRSState 1 3 7 =
         Except.error "Invalid SNP index")) :=
  ⟨by decide, c10_updateEffectSize initialPRSState 1 2 3 7 (by decide)⟩
